import Mathlib

/-!
Verification of the plain-text-to-Markdown structuring engine
(`structurize` and its helpers in `any2md/converters/txt.py`).

Lines are modelled as lists of characters (`Line := List Char`); the
whole-document function takes and returns a `Line` holding the full text
with embedded newlines, exactly as the Python function takes and returns
a string.  The regular expressions of the source are translated into
executable matchers over `Line`; each matcher's doc comment records the
regex it embeds.  Character classes (`\s`, `\d`, upper/lower case) are
modelled over ASCII.

The Python `while` loops are embedded as structurally recursive
functions over an explicit fuel argument; the top-level entry point
supplies `lines.length` fuel, which is sufficient because every
iteration of the source loop advances the cursor by at least one line.
-/

abbrev Line := List Char

/-- ASCII whitespace, as stripped by Python `str.strip()` and matched by `\s`. -/
def pyIsSpace (c : Char) : Bool :=
  c = ' ' || c = '\t' || c = '\n' || c = '\r' || c = '\x0b' || c = '\x0c'

/-- Python `str.strip()`: drop leading and trailing whitespace. -/
def pyStrip (l : Line) : Line :=
  ((l.dropWhile pyIsSpace).reverse.dropWhile pyIsSpace).reverse

def isAsciiDigit (c : Char) : Bool := decide ('0' ≤ c) && decide (c ≤ '9')

def isAsciiUpper (c : Char) : Bool := decide ('A' ≤ c) && decide (c ≤ 'Z')

def isAsciiLower (c : Char) : Bool := decide ('a' ≤ c) && decide (c ≤ 'z')

def isAsciiAlpha (c : Char) : Bool := isAsciiUpper c || isAsciiLower c

def toAsciiUpper (c : Char) : Char :=
  if isAsciiLower c then Char.ofNat (c.toNat - 32) else c

def toAsciiLower (c : Char) : Char :=
  if isAsciiUpper c then Char.ofNat (c.toNat + 32) else c

/-- The repeated-separator characters of `_SEPARATOR_RE`. -/
def sepChars : List Char := ['=', '-', '*', '_', '~']

/-- `_SEPARATOR_RE = ^([=\-*_~])\1{2,}\s*$`: a character from the class,
repeated at least three times in total, followed only by whitespace.
Returns the captured group 1 (the repeated character). -/
def sepMatch (s : Line) : Option Char :=
  match s with
  | [] => none
  | c :: rest =>
    if c ∈ sepChars ∧ 2 ≤ (rest.takeWhile (· = c)).length
        ∧ (rest.dropWhile (· = c)).all pyIsSpace then
      some c
    else none

/-- The bullet characters of `_BULLET_RE`. -/
def bulletChars : List Char := ['•', '–', '·']

/-- `_BULLET_RE = ^[•–·]\s+(.*)$`: a bullet character, one or more
whitespace characters, then the captured remainder. -/
def bulletMatch (s : Line) : Option Line :=
  match s with
  | [] => none
  | c :: rest =>
    if c ∈ bulletChars ∧ rest.takeWhile pyIsSpace ≠ [] then
      some (rest.dropWhile pyIsSpace)
    else none

/-- The common suffix `[.)]\)?\s+(.*)$` of `_NUMBERED_RE` and
`_LETTERED_RE`: a delimiter `.` or `)`, an optional further `)`, one or
more whitespace characters, then the captured remainder.  When the
optional `)` is present but not followed by whitespace the engine
backtracks, and `\s+` then fails on the `)` itself, so the match fails. -/
def delimTail (r : Line) : Option Line :=
  match r with
  | [] => none
  | d :: r2 =>
    if d = '.' ∨ d = ')' then
      match r2 with
      | ')' :: r3 =>
        if r3.takeWhile pyIsSpace ≠ [] then some (r3.dropWhile pyIsSpace) else none
      | _ =>
        if r2.takeWhile pyIsSpace ≠ [] then some (r2.dropWhile pyIsSpace) else none
    else none

/-- The leading `\(?` of `_NUMBERED_RE` and `_LETTERED_RE`: consume an
opening parenthesis when present. -/
def dropOpenParen (s : Line) : Line :=
  match s with
  | '(' :: r => r
  | _ => s

/-- `_NUMBERED_RE = ^\(?\d{1,3}[.)]\)?\s+(.*)$`.  Since the delimiter
characters are not digits, the greedy `\d{1,3}` succeeds exactly when the
maximal digit run after the optional `(` has length 1 to 3. -/
def numberedMatch (s : Line) : Option Line :=
  let s1 := dropOpenParen s
  let ds := s1.takeWhile isAsciiDigit
  if 1 ≤ ds.length ∧ ds.length ≤ 3 then delimTail (s1.dropWhile isAsciiDigit)
  else none

/-- `_LETTERED_RE = ^\(?[a-zA-Z][.)]\)?\s+(.*)$`. -/
def letteredMatch (s : Line) : Option Line :=
  match dropOpenParen s with
  | [] => none
  | c :: r => if isAsciiAlpha c then delimTail r else none

def fourSpaces : Line := [' ', ' ', ' ', ' ']

/-- `_INDENT_RE = ^(?:    |\t)(.*)$`: four spaces or a tab, then the
captured remainder. -/
def indentGroup (l : Line) : Option Line :=
  if l.take 4 = fourSpaces then some (l.drop 4)
  else
    match l with
    | '\t' :: r => some r
    | _ => none

def indentMatch (l : Line) : Bool := (indentGroup l).isSome

/-- The character class `[A-Z0-9 /&,:\-]` of `_ALL_CAPS_RE`. -/
def allCapsBody (c : Char) : Bool :=
  isAsciiUpper c || isAsciiDigit c || c = ' ' || c = '/' || c = '&' ||
    c = ',' || c = ':' || c = '-'

/-- `_ALL_CAPS_RE = ^[A-Z][A-Z0-9 /&,:\-]{2,78}$`: an uppercase letter
followed by 2 to 78 characters of the class, anchored at both ends, so
the whole line has 3 to 79 characters. -/
def allCapsMatch (s : Line) : Bool :=
  match s with
  | [] => false
  | c :: rest =>
    if isAsciiUpper c ∧ 2 ≤ rest.length ∧ rest.length ≤ 78
        ∧ rest.all allCapsBody then true else false

/-- Worker for Python `str.title()`: an alphabetic character is
uppercased after a non-cased character and lowercased after a cased one
(ASCII model). -/
def pyTitleGo : Bool → Line → Line
  | _, [] => []
  | prevCased, c :: r =>
    if isAsciiAlpha c then
      (if prevCased then toAsciiLower c else toAsciiUpper c) :: pyTitleGo true r
    else c :: pyTitleGo false r

/-- `_title_case_from_caps`: Python `str.title()`. -/
def pyTitle (s : Line) : Line := pyTitleGo false s

/-- Worker for Python `str.split()` with no argument: split on runs of
whitespace, discarding empty pieces.  The first argument accumulates the
current word in reverse. -/
def splitWordsAux : Line → Line → List Line
  | cur, [] => if cur = [] then [] else [cur.reverse]
  | cur, c :: r =>
    if pyIsSpace c then
      if cur = [] then splitWordsAux [] r else cur.reverse :: splitWordsAux [] r
    else splitWordsAux (c :: cur) r

def splitWords (l : Line) : List Line := splitWordsAux [] l

/-- The stoplist `skip` of `_is_title_case`. -/
def skipWords : List Line :=
  (["a", "an", "the", "and", "or", "but", "in", "on", "at", "to", "for",
    "of", "with", "by", "from", "is"]).map String.data

def pyLower (l : Line) : Line := l.map toAsciiLower

/-- `_is_title_case`: at least two words, of which at least 70% start
with an uppercase character or belong (lowercased) to the stoplist.
The source compares `caps >= len(words) * 0.7` in floating point; for
every word count up to 60 (a line here has at most 80 characters, hence
at most 40 words) that comparison coincides with the exact rational
comparison `10 * caps ≥ 7 * len(words)` used here. -/
def is_title_case (l : Line) : Bool :=
  let words := splitWords l
  if words.length < 2 then false
  else
    let caps := (words.filter (fun w =>
      (match w with
       | c :: _ => isAsciiUpper c
       | [] => false) || decide (pyLower w ∈ skipWords))).length
    decide (10 * caps ≥ 7 * words.length)

/-- `stripped.endswith((".", "!", "?", ",", ";", ":"))`. -/
def punctChars : List Char := ['.', '!', '?', ',', ';', ':']

def endsWithPunct (l : Line) : Bool :=
  match l.getLast? with
  | some c => decide (c ∈ punctChars)
  | none => false

/-- `prev_text.startswith("#")`. -/
def startsWithHash : Line → Bool
  | '#' :: _ => true
  | _ => false

/-- `text.replace("\t", "    ")`. -/
def expandTabs : Line → Line
  | [] => []
  | c :: r => (if c = '\t' then fourSpaces else [c]) ++ expandTabs r

/-- Python `text.split("\n")`: always returns at least one (possibly
empty) piece. -/
def splitLines : Line → List Line
  | [] => [[]]
  | c :: r =>
    if c = '\n' then [] :: splitLines r
    else
      match splitLines r with
      | h :: t => (c :: h) :: t
      | [] => [[c]]

/-- Python `"\n".join(output)`. -/
def joinLines : List Line → Line
  | [] => []
  | [l] => l
  | l :: ls => l ++ '\n' :: joinLines ls

/-- `lines[i]` (total: out-of-range reads, which the source never
performs, give the empty line). -/
def lineAt (lines : List Line) (i : Nat) : Line := lines.getD i []

/-- `prev_stripped = lines[i - 1].strip() if i > 0 else ""`. -/
def prevStrippedAt (lines : List Line) (i : Nat) : Line :=
  if 0 < i then pyStrip (lineAt lines (i - 1)) else []

/-- `next_stripped = lines[i + 1].strip() if i < n - 1 else ""`. -/
def nextStrippedAt (lines : List Line) (i : Nat) : Line :=
  if i + 1 < lines.length then pyStrip (lineAt lines (i + 1)) else []

/-- The inner lookahead `j = i + 1; while j < n and not lines[j].strip(): j += 1`
of the indented-block collector: the first index at or after `j` holding a
non-blank line (or `n`).  `fuel ≥ lines.length - j` suffices. -/
def skipBlanksF (lines : List Line) : Nat → Nat → Nat
  | 0, j => j
  | fuel + 1, j =>
    if j < lines.length ∧ pyStrip (lineAt lines j) = [] then
      skipBlanksF lines fuel (j + 1)
    else j

/-- The inner `while` loop of the indented-block branch, starting at line
index `i`: returns the collected `block_lines` together with the number of
lines consumed.  A blank line is kept (as an empty block line) only when
some further indented line follows the blank run; otherwise the loop
breaks, leaving the cursor on the blank line.  `fuel ≥ lines.length - i`
suffices. -/
def collectF (lines : List Line) : Nat → Nat → List Line × Nat
  | 0, _ => ([], 0)
  | fuel + 1, i =>
    if i < lines.length then
      let l := lineAt lines i
      if indentMatch l ∨ pyStrip l = [] then
        if pyStrip l = [] then
          let j := skipBlanksF lines lines.length (i + 1)
          if j < lines.length ∧ indentMatch (lineAt lines j) then
            let p := collectF lines fuel (i + 1)
            ([] :: p.1, p.2 + 1)
          else ([], 0)
        else
          let p := collectF lines fuel (i + 1)
          ((indentGroup l).getD l :: p.1, p.2 + 1)
      else ([], 0)
    else ([], 0)

def h1Mark : Line := "# ".data

def h2Mark : Line := "## ".data

def h3Mark : Line := "### ".data

def olMark : Line := "1. ".data

def ulMark : Line := "- ".data

def sepLine : Line := "---".data

def fenceLine : Line := "```".data

/-- The main `while i < n` loop of `structurize`.  The `output` list is
kept in reverse order (most recently appended line first), so Python's
`output[-1]` is the head and in-place replacement of `output[-1]`
replaces the head.  `te` is `title_emitted`.  Each iteration of the
source loop advances `i` by at least one, so `fuel ≥ lines.length - i`
suffices. -/
def loopF (lines : List Line) : Nat → Nat → List Line → Bool → List Line
  | 0, _, output, _ => output
  | fuel + 1, i, output, te =>
    if i < lines.length then
      let line := lineAt lines i
      let stripped := pyStrip line
      let prevStr := prevStrippedAt lines i
      let nextStr := nextStrippedAt lines i
      -- rule 1: separator / setext underline (`if sep_match and stripped`)
      match sepMatch stripped, stripped with
      | some ch, _ :: _ =>
        if prevStr ≠ [] ∧ output ≠ [] ∧ pyStrip (output.headD []) ≠ [] then
          let prevText := pyStrip (output.headD [])
          if startsWithHash prevText then
            loopF lines fuel (i + 1) (sepLine :: output) te
          else
            loopF lines fuel (i + 1)
              (((if ch = '=' then h1Mark else h2Mark) ++ prevText) :: output.tail) te
        else loopF lines fuel (i + 1) (sepLine :: output) te
      | _, _ =>
      -- rule 2: indented block
      if indentMatch line ∧ stripped ≠ [] then
        let p := collectF lines lines.length (i + 1)
        loopF lines fuel (i + 1 + p.2)
          (fenceLine :: (((indentGroup line).getD line :: p.1).reverse ++ fenceLine :: output)) te
      else
      -- rule 3: bullet list
      match bulletMatch stripped with
      | some g => loopF lines fuel (i + 1) ((ulMark ++ g) :: output) te
      | none =>
      -- rule 4: numbered / lettered list (lettered only tried when numbered fails)
      match numberedMatch stripped with
      | some g => loopF lines fuel (i + 1) ((olMark ++ g) :: output) te
      | none =>
      match letteredMatch stripped with
      | some g => loopF lines fuel (i + 1) ((olMark ++ g) :: output) te
      | none =>
      -- rule 5: ALL CAPS heading, only when followed by a blank line or at EOF
      if allCapsMatch stripped ∧ stripped.length ≤ 80
          ∧ (nextStr = [] ∨ i = lines.length - 1) then
        if te then loopF lines fuel (i + 1) ((h2Mark ++ pyTitle stripped) :: output) te
        else loopF lines fuel (i + 1) ((h1Mark ++ pyTitle stripped) :: output) true
      else
      -- rule 6: Title Case sub-heading
      if 3 ≤ stripped.length ∧ stripped.length ≤ 80 ∧ prevStr = [] ∧ nextStr = []
          ∧ is_title_case stripped = true ∧ endsWithPunct stripped = false ∧ 0 < i then
        loopF lines fuel (i + 1) ((h3Mark ++ stripped) :: output) te
      else
      -- rule 7: default passthrough
      loopF lines fuel (i + 1) (line :: output) te
    else output

/-- `structurize`: tab expansion, line split, classification loop, join. -/
def structurize (t : Line) : Line :=
  let lines := splitLines (expandTabs t)
  joinLines (loopF lines lines.length 0 [] false).reverse

/-- `structurize` wrapped over Lean strings. -/
def structurizeStr (s : String) : String := String.mk (structurize s.data)

/-- `loopF` instrumented for the `title_emitted` analysis: returns, besides
the output, the final value of the flag and the number of times the
ALL-CAPS rule fired with the flag still unset (i.e. the number of level-1
headings it produced).  Identical to `loopF` branch for branch. -/
def loopK (lines : List Line) : Nat → Nat → List Line → Bool → List Line × Bool × Nat
  | 0, _, output, te => (output, te, 0)
  | fuel + 1, i, output, te =>
    if i < lines.length then
      let line := lineAt lines i
      let stripped := pyStrip line
      let prevStr := prevStrippedAt lines i
      let nextStr := nextStrippedAt lines i
      match sepMatch stripped, stripped with
      | some ch, _ :: _ =>
        if prevStr ≠ [] ∧ output ≠ [] ∧ pyStrip (output.headD []) ≠ [] then
          let prevText := pyStrip (output.headD [])
          if startsWithHash prevText then
            loopK lines fuel (i + 1) (sepLine :: output) te
          else
            loopK lines fuel (i + 1)
              (((if ch = '=' then h1Mark else h2Mark) ++ prevText) :: output.tail) te
        else loopK lines fuel (i + 1) (sepLine :: output) te
      | _, _ =>
      if indentMatch line ∧ stripped ≠ [] then
        let p := collectF lines lines.length (i + 1)
        loopK lines fuel (i + 1 + p.2)
          (fenceLine :: (((indentGroup line).getD line :: p.1).reverse ++ fenceLine :: output)) te
      else
      match bulletMatch stripped with
      | some g => loopK lines fuel (i + 1) ((ulMark ++ g) :: output) te
      | none =>
      match numberedMatch stripped with
      | some g => loopK lines fuel (i + 1) ((olMark ++ g) :: output) te
      | none =>
      match letteredMatch stripped with
      | some g => loopK lines fuel (i + 1) ((olMark ++ g) :: output) te
      | none =>
      if allCapsMatch stripped ∧ stripped.length ≤ 80
          ∧ (nextStr = [] ∨ i = lines.length - 1) then
        if te then loopK lines fuel (i + 1) ((h2Mark ++ pyTitle stripped) :: output) te
        else
          let r := loopK lines fuel (i + 1) ((h1Mark ++ pyTitle stripped) :: output) true
          (r.1, r.2.1, r.2.2 + 1)
      else
      if 3 ≤ stripped.length ∧ stripped.length ≤ 80 ∧ prevStr = [] ∧ nextStr = []
          ∧ is_title_case stripped = true ∧ endsWithPunct stripped = false ∧ 0 < i then
        loopK lines fuel (i + 1) ((h3Mark ++ stripped) :: output) te
      else
      loopK lines fuel (i + 1) (line :: output) te
    else (output, te, 0)

/-! ### Helper lemmas: matcher shapes and disjointness -/

theorem sepMatch_shape {s : Line} {c : Char} (h : sepMatch s = some c) :
    ∃ r, s = c :: r ∧ c ∈ sepChars := by
  match s with
  | [] => simp [sepMatch] at h
  | a :: r =>
    simp only [sepMatch] at h
    split at h
    · next hc =>
      rw [Option.some.injEq] at h
      exact ⟨r, by rw [h], h ▸ hc.1⟩
    · exact absurd h (by simp)

theorem bulletMatch_shape {s g : Line} (h : bulletMatch s = some g) :
    ∃ c r, s = c :: r ∧ c ∈ bulletChars := by
  match s with
  | [] => simp [bulletMatch] at h
  | a :: r =>
    simp only [bulletMatch] at h
    split at h
    · next hc => exact ⟨a, r, rfl, hc.1⟩
    · exact absurd h (by simp)

theorem dropOpenParen_cons_ne {a : Char} {r : Line} (ha : a ≠ '(') :
    dropOpenParen (a :: r) = a :: r := by
  unfold dropOpenParen
  split
  · next heq => cases heq; exact absurd rfl ha
  · rfl

theorem numberedMatch_shape {s g : Line} (h : numberedMatch s = some g) :
    ∃ c r, s = c :: r ∧ (c = '(' ∨ isAsciiDigit c = true) := by
  match s with
  | [] => simp [numberedMatch, dropOpenParen, delimTail] at h
  | a :: r =>
    refine ⟨a, r, rfl, ?_⟩
    by_cases ha : a = '('
    · exact Or.inl ha
    · refine Or.inr ?_
      simp only [numberedMatch, dropOpenParen_cons_ne ha] at h
      split at h
      · next hds =>
        by_cases hd : isAsciiDigit a
        · exact hd
        · simp [List.takeWhile, hd] at hds
      · exact absurd h (by simp)

theorem letteredMatch_shape {s g : Line} (h : letteredMatch s = some g) :
    ∃ c r, s = c :: r ∧ (c = '(' ∨ isAsciiAlpha c = true) := by
  match s with
  | [] => simp [letteredMatch, dropOpenParen] at h
  | a :: r =>
    refine ⟨a, r, rfl, ?_⟩
    by_cases ha : a = '('
    · exact Or.inl ha
    · refine Or.inr ?_
      rw [letteredMatch, dropOpenParen_cons_ne ha] at h
      split at h
      · exact absurd h (by simp)
      · next c rest heq =>
        cases heq
        split at h
        · next halpha => exact halpha
        · exact absurd h (by simp)

theorem sepMatch_none_of_head {a : Char} {r : Line} (ha : a ∉ sepChars) :
    sepMatch (a :: r) = none := by
  simp only [sepMatch]
  split
  · next hc => exact absurd hc.1 ha
  · rfl

theorem bulletMatch_none_of_head {a : Char} {r : Line} (ha : a ∉ bulletChars) :
    bulletMatch (a :: r) = none := by
  simp only [bulletMatch]
  split
  · next hc => exact absurd hc.1 ha
  · rfl

theorem upper_ranges {c : Char} (h : isAsciiUpper c = true) : 'A' ≤ c ∧ c ≤ 'Z' := by
  simpa [isAsciiUpper, Bool.and_eq_true, decide_eq_true_eq] using h

theorem digit_ranges {c : Char} (h : isAsciiDigit c = true) : '0' ≤ c ∧ c ≤ '9' := by
  simpa [isAsciiDigit, Bool.and_eq_true, decide_eq_true_eq] using h

theorem not_sep_of_alpha {c : Char} (h : isAsciiAlpha c = true) : c ∉ sepChars := by
  intro hm
  simp [sepChars] at hm
  rcases hm with rfl | rfl | rfl | rfl | rfl <;> exact absurd h (by decide)

theorem not_sep_of_digit {c : Char} (h : isAsciiDigit c = true) : c ∉ sepChars := by
  intro hm
  simp [sepChars] at hm
  rcases hm with rfl | rfl | rfl | rfl | rfl <;> exact absurd h (by decide)

theorem not_bullet_of_alpha {c : Char} (h : isAsciiAlpha c = true) : c ∉ bulletChars := by
  intro hm
  simp [bulletChars] at hm
  rcases hm with rfl | rfl | rfl <;> exact absurd h (by decide)

theorem not_bullet_of_digit {c : Char} (h : isAsciiDigit c = true) : c ∉ bulletChars := by
  intro hm
  simp [bulletChars] at hm
  rcases hm with rfl | rfl | rfl <;> exact absurd h (by decide)

theorem not_bullet_of_paren {c : Char} (h : c = '(') : c ∉ bulletChars := by
  subst h; decide

theorem not_sep_of_paren {c : Char} (h : c = '(') : c ∉ sepChars := by
  subst h; decide

theorem ne_paren_of_upper {c : Char} (h : isAsciiUpper c = true) : c ≠ '(' := by
  intro hc; subst hc; exact absurd h (by decide)

theorem not_digit_of_upper {c : Char} (h : isAsciiUpper c = true) : isAsciiDigit c = false := by
  by_contra hd
  rw [Bool.not_eq_false] at hd
  exact absurd (le_trans (upper_ranges h).1 (digit_ranges hd).2) (by decide)

theorem delimTail_none_of_allCapsBody {r : Line} (h : r.all allCapsBody = true) :
    delimTail r = none := by
  cases r with
  | nil => rfl
  | cons d r2 =>
    rw [List.all_cons, Bool.and_eq_true] at h
    simp only [delimTail]
    split
    · next hc => rcases hc with rfl | rfl <;> exact absurd h.1 (by decide)
    · rfl

theorem allCapsMatch_shape {s : Line} (h : allCapsMatch s = true) :
    ∃ c r, s = c :: r ∧ isAsciiUpper c = true ∧ 2 ≤ r.length ∧ r.length ≤ 78
      ∧ r.all allCapsBody = true := by
  match s with
  | [] => simp [allCapsMatch] at h
  | a :: r =>
    simp only [allCapsMatch] at h
    split at h
    · next hc => exact ⟨a, r, rfl, hc.1, hc.2.1, hc.2.2.1, hc.2.2.2⟩
    · exact absurd h (by simp)

/-! ### One-step unfolding lemmas for the classification loop -/

theorem step_sep_promote (lines : List Line) (fuel i : Nat) (o : Line) (os : List Line)
    (te : Bool) (ch : Char)
    (hi : i < lines.length)
    (hsep : sepMatch (pyStrip (lineAt lines i)) = some ch)
    (hprev : prevStrippedAt lines i ≠ [])
    (ho : pyStrip o ≠ [])
    (hhash : startsWithHash (pyStrip o) = false) :
    loopF lines (fuel + 1) i (o :: os) te
      = loopF lines fuel (i + 1) (((if ch = '=' then h1Mark else h2Mark) ++ pyStrip o) :: os) te := by
  obtain ⟨r, hr, _⟩ := sepMatch_shape hsep
  simp only [loopF]
  rw [if_pos hi, hr]
  rw [hr] at hsep
  simp [hsep, hprev, ho, hhash]

theorem step_sep_standalone (lines : List Line) (fuel i : Nat) (output : List Line)
    (te : Bool) (ch : Char)
    (hi : i < lines.length)
    (hsep : sepMatch (pyStrip (lineAt lines i)) = some ch)
    (hno : ¬(prevStrippedAt lines i ≠ [] ∧ output ≠ [] ∧ pyStrip (output.headD []) ≠ []
              ∧ startsWithHash (pyStrip (output.headD [])) = false)) :
    loopF lines (fuel + 1) i output te
      = loopF lines fuel (i + 1) (sepLine :: output) te := by
  obtain ⟨r, hr, _⟩ := sepMatch_shape hsep
  simp only [loopF]
  rw [if_pos hi, hr]
  rw [hr] at hsep
  simp only [hsep]
  cases output with
  | nil => simp
  | cons o os =>
    split
    · next hcond =>
      split
      · rfl
      · next hh =>
        have hfalse : startsWithHash (pyStrip ((o :: os).headD [])) = false := by
          revert hh
          cases startsWithHash (pyStrip ((o :: os).headD [])) <;> simp
        exact absurd ⟨hcond.1, hcond.2.1, hcond.2.2, hfalse⟩ hno
    · rfl

theorem step_indent (lines : List Line) (fuel i : Nat) (output : List Line) (te : Bool)
    (hi : i < lines.length)
    (hsepn : sepMatch (pyStrip (lineAt lines i)) = none)
    (hind : indentMatch (lineAt lines i) = true)
    (hst : pyStrip (lineAt lines i) ≠ []) :
    loopF lines (fuel + 1) i output te
      = loopF lines fuel (i + 1 + (collectF lines lines.length (i + 1)).2)
          (fenceLine ::
            (((indentGroup (lineAt lines i)).getD (lineAt lines i)
                :: (collectF lines lines.length (i + 1)).1).reverse
              ++ fenceLine :: output)) te := by
  simp only [loopF]
  rw [if_pos hi]
  simp only [hsepn]
  rw [if_pos ⟨hind, hst⟩]

theorem step_bullet (lines : List Line) (fuel i : Nat) (output : List Line) (te : Bool)
    (g : Line)
    (hi : i < lines.length)
    (hsepn : sepMatch (pyStrip (lineAt lines i)) = none)
    (hnoind : ¬(indentMatch (lineAt lines i) = true ∧ pyStrip (lineAt lines i) ≠ []))
    (hbul : bulletMatch (pyStrip (lineAt lines i)) = some g) :
    loopF lines (fuel + 1) i output te
      = loopF lines fuel (i + 1) ((ulMark ++ g) :: output) te := by
  simp only [loopF]
  rw [if_pos hi]
  simp only [hsepn]
  rw [if_neg hnoind]
  simp only [hbul]

theorem step_numbered (lines : List Line) (fuel i : Nat) (output : List Line) (te : Bool)
    (g : Line)
    (hi : i < lines.length)
    (hsepn : sepMatch (pyStrip (lineAt lines i)) = none)
    (hnoind : ¬(indentMatch (lineAt lines i) = true ∧ pyStrip (lineAt lines i) ≠ []))
    (hbuln : bulletMatch (pyStrip (lineAt lines i)) = none)
    (hnum : numberedMatch (pyStrip (lineAt lines i)) = some g) :
    loopF lines (fuel + 1) i output te
      = loopF lines fuel (i + 1) ((olMark ++ g) :: output) te := by
  simp only [loopF]
  rw [if_pos hi]
  simp only [hsepn]
  rw [if_neg hnoind]
  simp only [hbuln, hnum]

theorem step_lettered (lines : List Line) (fuel i : Nat) (output : List Line) (te : Bool)
    (g : Line)
    (hi : i < lines.length)
    (hsepn : sepMatch (pyStrip (lineAt lines i)) = none)
    (hnoind : ¬(indentMatch (lineAt lines i) = true ∧ pyStrip (lineAt lines i) ≠ []))
    (hbuln : bulletMatch (pyStrip (lineAt lines i)) = none)
    (hnumn : numberedMatch (pyStrip (lineAt lines i)) = none)
    (hlet : letteredMatch (pyStrip (lineAt lines i)) = some g) :
    loopF lines (fuel + 1) i output te
      = loopF lines fuel (i + 1) ((olMark ++ g) :: output) te := by
  simp only [loopF]
  rw [if_pos hi]
  simp only [hsepn]
  rw [if_neg hnoind]
  simp only [hbuln, hnumn, hlet]

theorem step_allcaps (lines : List Line) (fuel i : Nat) (output : List Line) (te : Bool)
    (hi : i < lines.length)
    (hsepn : sepMatch (pyStrip (lineAt lines i)) = none)
    (hnoind : ¬(indentMatch (lineAt lines i) = true ∧ pyStrip (lineAt lines i) ≠ []))
    (hbuln : bulletMatch (pyStrip (lineAt lines i)) = none)
    (hnumn : numberedMatch (pyStrip (lineAt lines i)) = none)
    (hletn : letteredMatch (pyStrip (lineAt lines i)) = none)
    (hcaps : allCapsMatch (pyStrip (lineAt lines i)) = true)
    (hlen : (pyStrip (lineAt lines i)).length ≤ 80)
    (hnext : nextStrippedAt lines i = [] ∨ i = lines.length - 1) :
    loopF lines (fuel + 1) i output te
      = loopF lines fuel (i + 1)
          (((if te then h2Mark else h1Mark) ++ pyTitle (pyStrip (lineAt lines i))) :: output)
          true := by
  simp only [loopF]
  rw [if_pos hi]
  simp only [hsepn]
  rw [if_neg hnoind]
  simp only [hbuln, hnumn, hletn]
  rw [if_pos ⟨hcaps, hlen, hnext⟩]
  cases te <;> simp

theorem step_titlecase (lines : List Line) (fuel i : Nat) (output : List Line) (te : Bool)
    (hi : i < lines.length)
    (hsepn : sepMatch (pyStrip (lineAt lines i)) = none)
    (hnoind : ¬(indentMatch (lineAt lines i) = true ∧ pyStrip (lineAt lines i) ≠ []))
    (hbuln : bulletMatch (pyStrip (lineAt lines i)) = none)
    (hnumn : numberedMatch (pyStrip (lineAt lines i)) = none)
    (hletn : letteredMatch (pyStrip (lineAt lines i)) = none)
    (hnocaps : ¬(allCapsMatch (pyStrip (lineAt lines i)) = true
                  ∧ (pyStrip (lineAt lines i)).length ≤ 80
                  ∧ (nextStrippedAt lines i = [] ∨ i = lines.length - 1)))
    (h3 : 3 ≤ (pyStrip (lineAt lines i)).length)
    (h80 : (pyStrip (lineAt lines i)).length ≤ 80)
    (hprev : prevStrippedAt lines i = [])
    (hnext : nextStrippedAt lines i = [])
    (htc : is_title_case (pyStrip (lineAt lines i)) = true)
    (hpunct : endsWithPunct (pyStrip (lineAt lines i)) = false)
    (hipos : 0 < i) :
    loopF lines (fuel + 1) i output te
      = loopF lines fuel (i + 1) ((h3Mark ++ pyStrip (lineAt lines i)) :: output) te := by
  simp only [loopF]
  rw [if_pos hi]
  simp only [hsepn]
  rw [if_neg hnoind]
  simp only [hbuln, hnumn, hletn]
  rw [if_neg hnocaps]
  rw [if_pos ⟨h3, h80, hprev, hnext, htc, hpunct, hipos⟩]

theorem step_passthrough (lines : List Line) (fuel i : Nat) (output : List Line) (te : Bool)
    (hi : i < lines.length)
    (hsepn : sepMatch (pyStrip (lineAt lines i)) = none)
    (hnoind : ¬(indentMatch (lineAt lines i) = true ∧ pyStrip (lineAt lines i) ≠ []))
    (hbuln : bulletMatch (pyStrip (lineAt lines i)) = none)
    (hnumn : numberedMatch (pyStrip (lineAt lines i)) = none)
    (hletn : letteredMatch (pyStrip (lineAt lines i)) = none)
    (hnocaps : ¬(allCapsMatch (pyStrip (lineAt lines i)) = true
                  ∧ (pyStrip (lineAt lines i)).length ≤ 80
                  ∧ (nextStrippedAt lines i = [] ∨ i = lines.length - 1)))
    (hnotc : ¬(3 ≤ (pyStrip (lineAt lines i)).length
                ∧ (pyStrip (lineAt lines i)).length ≤ 80
                ∧ prevStrippedAt lines i = [] ∧ nextStrippedAt lines i = []
                ∧ is_title_case (pyStrip (lineAt lines i)) = true
                ∧ endsWithPunct (pyStrip (lineAt lines i)) = false
                ∧ 0 < i)) :
    loopF lines (fuel + 1) i output te
      = loopF lines fuel (i + 1) (lineAt lines i :: output) te := by
  simp only [loopF]
  rw [if_pos hi]
  simp only [hsepn]
  rw [if_neg hnoind]
  simp only [hbuln, hnumn, hletn]
  rw [if_neg hnocaps, if_neg hnotc]

theorem alpha_of_upper {c : Char} (h : isAsciiUpper c = true) : isAsciiAlpha c = true := by
  simp [isAsciiAlpha, h]

theorem numberedMatch_none_head {c : Char} {r : Line} (h1 : c ≠ '(')
    (h2 : isAsciiDigit c = false) : numberedMatch (c :: r) = none := by
  simp only [numberedMatch, dropOpenParen_cons_ne h1]
  rw [List.takeWhile_cons_of_neg (by simp [h2])]
  simp

theorem letteredMatch_none_of_body {c : Char} {r : Line} (hc : c ≠ '(')
    (hr : r.all allCapsBody = true) : letteredMatch (c :: r) = none := by
  rw [letteredMatch, dropOpenParen_cons_ne hc]
  simp [delimTail_none_of_allCapsBody hr]

theorem sepMatch_replicate_iff (c : Char) (k : Nat) :
    sepMatch (List.replicate k c) = some c ↔ (c ∈ sepChars ∧ 3 ≤ k) := by
  cases k with
  | zero => simp [sepMatch]
  | succ m =>
    rw [List.replicate_succ]
    simp only [sepMatch]
    rw [List.takeWhile_replicate, List.dropWhile_replicate]
    simp only [decide_eq_true_eq, eq_self_iff_true, if_true, List.length_replicate,
      List.all_nil, and_true]
    constructor
    · intro h
      split at h
      · next hcond => exact ⟨hcond.1, by have := hcond.2; omega⟩
      · exact absurd h (by simp)
    · rintro ⟨hmem, h3⟩
      rw [if_pos ⟨hmem, by omega⟩]

theorem sepMatch_some_decompose {s : Line} {c : Char} (h : sepMatch s = some c) :
    ∃ k w, s = List.replicate k c ++ w ∧ 3 ≤ k ∧ w.all pyIsSpace = true := by
  obtain ⟨r, hr, _⟩ := sepMatch_shape h
  subst hr
  simp only [sepMatch] at h
  split at h
  · next hc =>
    have hrep : r.takeWhile (fun x => decide (x = c)) =
        List.replicate (r.takeWhile (fun x => decide (x = c))).length c := by
      refine List.eq_replicate_of_mem ?_
      intro b hb
      have := List.mem_takeWhile_imp hb
      simpa using this
    refine ⟨(r.takeWhile (fun x => decide (x = c))).length + 1,
            r.dropWhile (fun x => decide (x = c)), ?_, by have := hc.2.1; omega, hc.2.2⟩
    rw [List.replicate_succ, List.cons_append]
    congr 1
    conv_lhs => rw [← List.takeWhile_append_dropWhile (fun x => decide (x = c)) r]
    rw [← hrep]
  · exact absurd h (by simp)

theorem skipBlanksF_spec (lines : List Line) : ∀ (fuel j : Nat),
    lines.length ≤ j + fuel → j ≤ lines.length →
      j ≤ skipBlanksF lines fuel j ∧ skipBlanksF lines fuel j ≤ lines.length
      ∧ (∀ m, j ≤ m → m < skipBlanksF lines fuel j → pyStrip (lineAt lines m) = [])
      ∧ (skipBlanksF lines fuel j < lines.length →
          pyStrip (lineAt lines (skipBlanksF lines fuel j)) ≠ []) := by
  intro fuel
  induction fuel with
  | zero =>
    intro j h1 h2
    have hj : j = lines.length := by omega
    simp only [skipBlanksF]
    exact ⟨le_refl j, by omega, fun m hm1 hm2 => by omega, fun h => by omega⟩
  | succ f ih =>
    intro j h1 h2
    simp only [skipBlanksF]
    split
    · next hcond =>
      have hrec := ih (j + 1) (by omega) (by omega)
      refine ⟨by omega, hrec.2.1, ?_, hrec.2.2.2⟩
      intro m hm1 hm2
      rcases Nat.eq_or_lt_of_le hm1 with rfl | hlt
      · exact hcond.2
      · exact hrec.2.2.1 m (by omega) hm2
    · next hcond =>
      refine ⟨le_refl j, h2, fun m hm1 hm2 => by omega, ?_⟩
      intro hlt
      by_contra hblank
      exact hcond ⟨hlt, hblank⟩

theorem collectF_cons_indent (lines : List Line) (f i : Nat)
    (hi : i < lines.length)
    (hind : indentMatch (lineAt lines i) = true)
    (hst : pyStrip (lineAt lines i) ≠ []) :
    collectF lines (f + 1) i
      = ((indentGroup (lineAt lines i)).getD (lineAt lines i) :: (collectF lines f (i + 1)).1,
          (collectF lines f (i + 1)).2 + 1) := by
  simp only [collectF]
  rw [if_pos hi, if_pos (Or.inl hind), if_neg hst]

theorem collectF_cons_blank_island (lines : List Line) (f i : Nat)
    (hi : i < lines.length)
    (hblank : pyStrip (lineAt lines i) = [])
    (hahead : skipBlanksF lines lines.length (i + 1) < lines.length
        ∧ indentMatch (lineAt lines (skipBlanksF lines lines.length (i + 1))) = true) :
    collectF lines (f + 1) i
      = ([] :: (collectF lines f (i + 1)).1, (collectF lines f (i + 1)).2 + 1) := by
  simp only [collectF]
  rw [if_pos hi, if_pos (Or.inr hblank), if_pos hblank, if_pos hahead]

theorem collectF_blank_stop (lines : List Line) (f i : Nat)
    (hi : i < lines.length)
    (hblank : pyStrip (lineAt lines i) = [])
    (hnoahead : ¬(skipBlanksF lines lines.length (i + 1) < lines.length
        ∧ indentMatch (lineAt lines (skipBlanksF lines lines.length (i + 1))) = true)) :
    collectF lines (f + 1) i = ([], 0) := by
  simp only [collectF]
  rw [if_pos hi, if_pos (Or.inr hblank), if_pos hblank, if_neg hnoahead]

theorem collectF_stop (lines : List Line) (f i : Nat)
    (hi : i < lines.length)
    (hind : indentMatch (lineAt lines i) = false)
    (hst : pyStrip (lineAt lines i) ≠ []) :
    collectF lines (f + 1) i = ([], 0) := by
  simp only [collectF]
  rw [if_pos hi, if_neg ?_]
  rintro (h | h)
  · rw [hind] at h; exact absurd h (by simp)
  · exact hst h

theorem collectF_end (lines : List Line) (f i : Nat) (hi : ¬ i < lines.length) :
    collectF lines (f + 1) i = ([], 0) := by
  simp only [collectF]
  rw [if_neg hi]

/-- The four-space-only restriction of the indent rule, following the
claim's wording: the literal-tab alternative removed. -/
def indentGroupSpaces (l : Line) : Option Line :=
  if l.take 4 = fourSpaces then some (l.drop 4) else none

def indentMatchSpaces (l : Line) : Bool := (indentGroupSpaces l).isSome

theorem expandTabs_no_tab (l : Line) : '\t' ∉ expandTabs l := by
  induction l with
  | nil => simp [expandTabs]
  | cons c r ih =>
    simp only [expandTabs]
    intro hmem
    rw [List.mem_append] at hmem
    rcases hmem with h | h
    · by_cases hc : c = '\t'
      · rw [if_pos hc] at h
        simp [fourSpaces] at h
      · rw [if_neg hc] at h
        simp at h
        exact hc h.symm
    · exact ih h

theorem splitLines_ne_nil (l : Line) : splitLines l ≠ [] := by
  cases l with
  | nil => simp [splitLines]
  | cons c r =>
    simp only [splitLines]
    split
    · simp
    · split
      · simp
      · simp

theorem splitLines_mem_chars (l : Line) :
    ∀ line ∈ splitLines l, ∀ c ∈ line, c ∈ l := by
  induction l with
  | nil =>
    intro line hline c hc
    simp [splitLines] at hline
    subst hline
    simp at hc
  | cons a r ih =>
    intro line hline c hc
    simp only [splitLines] at hline
    by_cases ha : a = '\n'
    · rw [if_pos ha] at hline
      rcases List.mem_cons.mp hline with rfl | hmem
      · simp at hc
      · exact List.mem_cons_of_mem a (ih line hmem c hc)
    · rw [if_neg ha] at hline
      rcases hh : splitLines r with _ | ⟨h0, t⟩
      · exact absurd hh (splitLines_ne_nil r)
      · rw [hh] at hline
        rcases List.mem_cons.mp hline with rfl | hmem
        · rcases List.mem_cons.mp hc with rfl | hc2
          · exact List.mem_cons_self c r
          · have : h0 ∈ splitLines r := by rw [hh]; exact List.mem_cons_self h0 t
            exact List.mem_cons_of_mem a (ih h0 this c hc2)
        · have : line ∈ splitLines r := by rw [hh]; exact List.mem_cons_of_mem h0 hmem
          exact List.mem_cons_of_mem a (ih line this c hc)

theorem indentGroup_no_tab {l : Line} (h : '\t' ∉ l) :
    indentGroup l = indentGroupSpaces l := by
  unfold indentGroup indentGroupSpaces
  by_cases h4 : l.take 4 = fourSpaces
  · rw [if_pos h4, if_pos h4]
  · rw [if_neg h4, if_neg h4]
    split
    · next r =>
      exact absurd (List.mem_cons_self '\t' r) h
    · rfl

set_option maxHeartbeats 1000000 in
theorem loopK_fst (lines : List Line) : ∀ (fuel i : Nat) (output : List Line) (te : Bool),
    (loopK lines fuel i output te).1 = loopF lines fuel i output te := by
  intro fuel
  induction fuel with
  | zero => intro i output te; rfl
  | succ f ih =>
    intro i output te
    simp only [loopK, loopF]
    repeat' split
    all_goals (first | rfl | exact ih _ _ _)

set_option maxHeartbeats 1000000 in
theorem loopK_true (lines : List Line) : ∀ (fuel i : Nat) (output : List Line),
    (loopK lines fuel i output true).2 = (true, 0) := by
  intro fuel
  induction fuel with
  | zero => intro i output; rfl
  | succ f ih =>
    intro i output
    simp only [loopK]
    repeat' split
    all_goals (first | rfl | exact ih _ _ | simp_all [ih])

set_option maxHeartbeats 1000000 in
theorem loopK_count_le_one (lines : List Line) : ∀ (fuel i : Nat) (output : List Line) (te : Bool),
    (loopK lines fuel i output te).2.2 ≤ 1 := by
  intro fuel
  induction fuel with
  | zero => intro i output te; exact Nat.zero_le 1
  | succ f ih =>
    intro i output te
    simp only [loopK]
    repeat' split
    all_goals (first | exact Nat.zero_le 1 | exact ih _ _ _ | simp [loopK_true, ih])

/-! ### Claim theorems -/

theorem allcaps_fire_step (lines : List Line) (fuel i : Nat) (output : List Line) (te : Bool)
    (hi : i < lines.length)
    (hcaps : allCapsMatch (pyStrip (lineAt lines i)) = true)
    (hind : indentMatch (lineAt lines i) = false)
    (hnext : nextStrippedAt lines i = [] ∨ i = lines.length - 1) :
    loopF lines (fuel + 1) i output te
      = loopF lines fuel (i + 1)
          (((if te then h2Mark else h1Mark) ++ pyTitle (pyStrip (lineAt lines i))) :: output)
          true := by
  obtain ⟨c, r, hs, hup, hr2, hr78, hbody⟩ := allCapsMatch_shape hcaps
  have hsepn : sepMatch (pyStrip (lineAt lines i)) = none := by
    rw [hs]; exact sepMatch_none_of_head (not_sep_of_alpha (alpha_of_upper hup))
  have hbuln : bulletMatch (pyStrip (lineAt lines i)) = none := by
    rw [hs]; exact bulletMatch_none_of_head (not_bullet_of_alpha (alpha_of_upper hup))
  have hnumn : numberedMatch (pyStrip (lineAt lines i)) = none := by
    rw [hs]; exact numberedMatch_none_head (ne_paren_of_upper hup) (not_digit_of_upper hup)
  have hletn : letteredMatch (pyStrip (lineAt lines i)) = none := by
    rw [hs]; exact letteredMatch_none_of_body (ne_paren_of_upper hup) hbody
  have hlen : (pyStrip (lineAt lines i)).length ≤ 80 := by
    rw [hs]; simp only [List.length_cons]; omega
  have hnoind : ¬(indentMatch (lineAt lines i) = true ∧ pyStrip (lineAt lines i) ≠ []) := by
    rintro ⟨h1, _⟩
    rw [hind] at h1
    exact Bool.false_ne_true h1
  exact step_allcaps lines fuel i output te hi hsepn hnoind hbuln hnumn hletn hcaps hlen hnext

/-- C1: the separator/setext rule of `structurize`.  A separator line is
exactly a character from the class repeated at least three times; when the
cursor reaches one with a non-blank preceding input line and a non-blank
previously emitted output line not starting with `#`, that output line is
replaced in place by a level-1 (`=`) or level-2 (otherwise) heading over
its stripped text and the separator is consumed; in every other situation
a literal `---` line is appended.  The claim's three concrete examples are
checked exactly. -/
theorem C1_separator_setext_rule :
    (∀ (c : Char) (k : Nat),
        sepMatch (List.replicate k c) = some c ↔ (c ∈ sepChars ∧ 3 ≤ k))
    ∧ (∀ (lines : List Line) (fuel i : Nat) (o : Line) (os : List Line) (te : Bool) (ch : Char),
        i < lines.length →
        sepMatch (pyStrip (lineAt lines i)) = some ch →
        prevStrippedAt lines i ≠ [] →
        pyStrip o ≠ [] →
        startsWithHash (pyStrip o) = false →
        loopF lines (fuel + 1) i (o :: os) te
          = loopF lines fuel (i + 1)
              (((if ch = '=' then h1Mark else h2Mark) ++ pyStrip o) :: os) te)
    ∧ (∀ (lines : List Line) (fuel i : Nat) (output : List Line) (te : Bool) (ch : Char),
        i < lines.length →
        sepMatch (pyStrip (lineAt lines i)) = some ch →
        ¬(prevStrippedAt lines i ≠ [] ∧ output ≠ [] ∧ pyStrip (output.headD []) ≠ []
            ∧ startsWithHash (pyStrip (output.headD [])) = false) →
        loopF lines (fuel + 1) i output te = loopF lines fuel (i + 1) (sepLine :: output) te)
    ∧ structurize ("Chapter One\n===\n").data = ("# Chapter One\n").data
    ∧ structurize ("Section\n---\n").data = ("## Section\n").data
    ∧ structurize ("***\n").data = ("---\n").data := by
  refine ⟨sepMatch_replicate_iff, ?_, ?_, by decide, by decide, by decide⟩
  · intro lines fuel i o os te ch hi hsep hprev ho hh
    exact step_sep_promote lines fuel i o os te ch hi hsep hprev ho hh
  · intro lines fuel i output te ch hi hsep hno
    exact step_sep_standalone lines fuel i output te ch hi hsep hno

/-- C1 witness: the promotion branch applied to the concrete two-line
document `Ti` / `===` with output holding the emitted `Ti`. -/
theorem C1_separator_setext_rule_witness :
    loopF [("Ti").data, ("===").data] 1 1 [("Ti").data] false
      = loopF [("Ti").data, ("===").data] 0 2
          (((if ('=' : Char) = '=' then h1Mark else h2Mark) ++ pyStrip ("Ti").data) :: []) false :=
  C1_separator_setext_rule.2.1 [("Ti").data, ("===").data] 0 1 ("Ti").data [] false '='
    (by decide) (by decide) (by decide) (by decide) (by decide)

/-- C3 counterexample: a stripped line of exactly 80 characters meeting
every other condition of the claim (all uppercase letters, uppercase
start, end of input right after) is rejected by the ALL-CAPS pattern, and
`structurize` passes it through unchanged instead of emitting a heading:
the claimed upper bound of 80 is wrong. -/
theorem C3_allcaps_counterexample :
    (List.replicate 80 'A').length = 80
    ∧ pyStrip (List.replicate 80 'A') = List.replicate 80 'A'
    ∧ allCapsMatch (List.replicate 80 'A') = false
    ∧ structurize (List.replicate 80 'A' ++ ['\n']) = List.replicate 80 'A' ++ ['\n']
    ∧ structurize (List.replicate 80 'A' ++ ['\n'])
        ≠ (h1Mark ++ pyTitle (List.replicate 80 'A')) ++ ['\n'] := by decide

/-- C3 (amended): the ALL-CAPS rule fires exactly on stripped lines of 3
to 79 characters drawn from the class (uppercase letters, digits, spaces,
`/ & , : -`) whose first character is an uppercase letter, when followed
by a blank line or end of input; the firing line is title-cased and
emitted as a heading (level 1 or 2 according to `title_emitted`). -/
theorem C3_allcaps_rule_amended :
    (∀ s : Line, allCapsMatch s = true ↔
        (3 ≤ s.length ∧ s.length ≤ 79 ∧ isAsciiUpper (s.headD ' ') = true
          ∧ s.all allCapsBody = true))
    ∧ (∀ (lines : List Line) (fuel i : Nat) (output : List Line) (te : Bool),
        i < lines.length →
        allCapsMatch (pyStrip (lineAt lines i)) = true →
        indentMatch (lineAt lines i) = false →
        (nextStrippedAt lines i = [] ∨ i = lines.length - 1) →
        loopF lines (fuel + 1) i output te
          = loopF lines fuel (i + 1)
              (((if te then h2Mark else h1Mark) ++ pyTitle (pyStrip (lineAt lines i))) :: output)
              true)
    ∧ structurize (List.replicate 79 'A' ++ ['\n'])
        = (h1Mark ++ ('A' :: List.replicate 78 'a')) ++ ['\n'] := by
  refine ⟨?_, fun lines fuel i output te => allcaps_fire_step lines fuel i output te, by decide⟩
  intro s
  cases s with
  | nil => simp [allCapsMatch]
  | cons c r =>
    simp only [allCapsMatch, List.headD_cons, List.length_cons, List.all_cons, Bool.and_eq_true]
    constructor
    · intro h
      split at h
      · next hc =>
        exact ⟨by omega, by have := hc.2.2.1; omega, hc.1,
          by simp [allCapsBody, hc.1], hc.2.2.2⟩
      · exact absurd h (by simp)
    · rintro ⟨h3, h79, hup, _, hbody⟩
      rw [if_pos ⟨hup, by omega, by omega, hbody⟩]

/-- C3 witness: the firing branch applied to the concrete one-line
document `FOO BAR` at end of input with the flag unset. -/
theorem C3_allcaps_rule_amended_witness :
    loopF [("FOO BAR").data] 1 0 [] false
      = loopF [("FOO BAR").data] 0 1
          (((if false then h2Mark else h1Mark) ++ pyTitle (pyStrip ("FOO BAR").data)) :: []) true :=
  C3_allcaps_rule_amended.2.1 [("FOO BAR").data] 0 0 [] false
    (by decide) (by decide) (by decide) (by decide)

/-- C2: the indented-block rule.  An indented, non-blank line (reached
with the separator rule not matching) opens a fenced block: the loop
emits an opening fence, the collected lines with their indentation
prefix stripped, and a closing fence, resuming at the first uncollected
line.  The collector consumes indented lines, keeps one empty line per
blank line when a further indented line follows the blank run, stops
before a blank run not followed by indented content, and stops at a
non-indented non-blank line or end of input; the lookahead returns the
first non-blank index after the run.  The claim's block shapes are also
checked on concrete documents. -/
theorem C2_indented_block_rule :
    (∀ (lines : List Line) (fuel i : Nat) (output : List Line) (te : Bool),
        i < lines.length →
        sepMatch (pyStrip (lineAt lines i)) = none →
        indentMatch (lineAt lines i) = true →
        pyStrip (lineAt lines i) ≠ [] →
        loopF lines (fuel + 1) i output te
          = loopF lines fuel (i + 1 + (collectF lines lines.length (i + 1)).2)
              (fenceLine :: (((indentGroup (lineAt lines i)).getD (lineAt lines i)
                  :: (collectF lines lines.length (i + 1)).1).reverse
                ++ fenceLine :: output)) te)
    ∧ (∀ (lines : List Line) (f i : Nat),
        i < lines.length →
        indentMatch (lineAt lines i) = true →
        pyStrip (lineAt lines i) ≠ [] →
        collectF lines (f + 1) i
          = ((indentGroup (lineAt lines i)).getD (lineAt lines i)
                :: (collectF lines f (i + 1)).1,
              (collectF lines f (i + 1)).2 + 1))
    ∧ (∀ (lines : List Line) (f i : Nat),
        i < lines.length →
        pyStrip (lineAt lines i) = [] →
        (skipBlanksF lines lines.length (i + 1) < lines.length
          ∧ indentMatch (lineAt lines (skipBlanksF lines lines.length (i + 1))) = true) →
        collectF lines (f + 1) i
          = ([] :: (collectF lines f (i + 1)).1, (collectF lines f (i + 1)).2 + 1))
    ∧ (∀ (lines : List Line) (f i : Nat),
        i < lines.length →
        pyStrip (lineAt lines i) = [] →
        ¬(skipBlanksF lines lines.length (i + 1) < lines.length
            ∧ indentMatch (lineAt lines (skipBlanksF lines lines.length (i + 1))) = true) →
        collectF lines (f + 1) i = ([], 0))
    ∧ (∀ (lines : List Line) (f i : Nat),
        i < lines.length →
        indentMatch (lineAt lines i) = false →
        pyStrip (lineAt lines i) ≠ [] →
        collectF lines (f + 1) i = ([], 0))
    ∧ (∀ (lines : List Line) (fuel j : Nat),
        lines.length ≤ j + fuel → j ≤ lines.length →
          j ≤ skipBlanksF lines fuel j ∧ skipBlanksF lines fuel j ≤ lines.length
          ∧ (∀ m, j ≤ m → m < skipBlanksF lines fuel j → pyStrip (lineAt lines m) = [])
          ∧ (skipBlanksF lines fuel j < lines.length →
              pyStrip (lineAt lines (skipBlanksF lines fuel j)) ≠ []))
    ∧ structurize ("    code1\n\n    code2\nafter\n").data
        = ("```\ncode1\n\ncode2\n```\nafter\n").data
    ∧ structurize ("    a\n\nb\n").data = ("```\na\n```\n\nb\n").data := by
  refine ⟨?_, collectF_cons_indent, collectF_cons_blank_island, collectF_blank_stop,
    collectF_stop, skipBlanksF_spec, by decide, by decide⟩
  intro lines fuel i output te hi hsepn hind hst
  exact step_indent lines fuel i output te hi hsepn hind hst

/-- C2 witness: the fenced-block branch applied to the concrete document
with one indented line followed by a plain line. -/
theorem C2_indented_block_rule_witness :
    loopF [("    x").data, ("y").data] 1 0 [] false
      = loopF [("    x").data, ("y").data] 0
          (0 + 1 + (collectF [("    x").data, ("y").data] 2 1).2)
          (fenceLine :: (((indentGroup (lineAt [("    x").data, ("y").data] 0)).getD
              (lineAt [("    x").data, ("y").data] 0)
              :: (collectF [("    x").data, ("y").data] 2 1).1).reverse
            ++ fenceLine :: [])) false :=
  C2_indented_block_rule.1 [("    x").data, ("y").data] 0 0 [] false
    (by decide) (by decide) (by decide) (by decide)

/-- C4: ALL-CAPS heading level sequencing.  The instrumented loop agrees
with the plain loop on the emitted output; once the `title_emitted` flag
is set it stays set and no further level-1 ALL-CAPS headings are
produced; in any single pass at most one level-1 heading comes from the
ALL-CAPS rule; a firing with the flag unset emits a level-1 heading and
sets the flag, a firing with it set emits a level-2 heading.  The
claim's two-heading document is checked concretely. -/
theorem C4_title_emitted_sequencing :
    (∀ (lines : List Line) (fuel i : Nat) (output : List Line) (te : Bool),
        (loopK lines fuel i output te).1 = loopF lines fuel i output te)
    ∧ (∀ (lines : List Line) (fuel i : Nat) (output : List Line),
        (loopK lines fuel i output true).2 = (true, 0))
    ∧ (∀ (lines : List Line) (fuel i : Nat) (output : List Line) (te : Bool),
        (loopK lines fuel i output te).2.2 ≤ 1)
    ∧ (∀ (lines : List Line) (fuel i : Nat) (output : List Line),
        i < lines.length →
        allCapsMatch (pyStrip (lineAt lines i)) = true →
        indentMatch (lineAt lines i) = false →
        (nextStrippedAt lines i = [] ∨ i = lines.length - 1) →
        loopF lines (fuel + 1) i output false
          = loopF lines fuel (i + 1)
              ((h1Mark ++ pyTitle (pyStrip (lineAt lines i))) :: output) true
        ∧ loopF lines (fuel + 1) i output true
          = loopF lines fuel (i + 1)
              ((h2Mark ++ pyTitle (pyStrip (lineAt lines i))) :: output) true)
    ∧ structurize ("INTRO\n\nMORE STUFF\n\ntext\n").data
        = ("# Intro\n\n## More Stuff\n\ntext\n").data := by
  refine ⟨loopK_fst, loopK_true, loopK_count_le_one, ?_, by decide⟩
  intro lines fuel i output hi hcaps hind hnext
  exact ⟨allcaps_fire_step lines fuel i output false hi hcaps hind hnext,
    allcaps_fire_step lines fuel i output true hi hcaps hind hnext⟩

/-- C4 witness: the two firing equations applied to the concrete one-line
document `INTRO`. -/
theorem C4_title_emitted_sequencing_witness :
    loopF [("INTRO").data] 1 0 [] false
      = loopF [("INTRO").data] 0 1
          ((h1Mark ++ pyTitle (pyStrip ("INTRO").data)) :: []) true :=
  (C4_title_emitted_sequencing.2.2.2.1 [("INTRO").data] 0 0 []
    (by decide) (by decide) (by decide) (by decide)).1

/-- C5: the title-case sub-heading rule.  `_is_title_case` holds exactly
when the line splits into at least two words of which at least 70% start
with an uppercase character or belong, lowercased, to the stoplist; a
line on which no earlier rule fired, of stripped length 3 to 80,
isolated between blank (or absent) neighbour lines, not the first line,
not ending in sentence punctuation and satisfying the word test, is
emitted as a level-3 heading over its stripped text.  Checked concretely
on the claim's isolated title line. -/
theorem C5_title_case_rule :
    (∀ l : Line, is_title_case l = true ↔
        (2 ≤ (splitWords l).length
          ∧ 7 * (splitWords l).length
              ≤ 10 * ((splitWords l).filter (fun w =>
                  isAsciiUpper (w.headD ' ') || decide (pyLower w ∈ skipWords))).length))
    ∧ (∀ (lines : List Line) (fuel i : Nat) (output : List Line) (te : Bool),
        i < lines.length →
        sepMatch (pyStrip (lineAt lines i)) = none →
        ¬(indentMatch (lineAt lines i) = true ∧ pyStrip (lineAt lines i) ≠ []) →
        bulletMatch (pyStrip (lineAt lines i)) = none →
        numberedMatch (pyStrip (lineAt lines i)) = none →
        letteredMatch (pyStrip (lineAt lines i)) = none →
        ¬(allCapsMatch (pyStrip (lineAt lines i)) = true
            ∧ (pyStrip (lineAt lines i)).length ≤ 80
            ∧ (nextStrippedAt lines i = [] ∨ i = lines.length - 1)) →
        3 ≤ (pyStrip (lineAt lines i)).length →
        (pyStrip (lineAt lines i)).length ≤ 80 →
        prevStrippedAt lines i = [] →
        nextStrippedAt lines i = [] →
        is_title_case (pyStrip (lineAt lines i)) = true →
        endsWithPunct (pyStrip (lineAt lines i)) = false →
        0 < i →
        loopF lines (fuel + 1) i output te
          = loopF lines fuel (i + 1) ((h3Mark ++ pyStrip (lineAt lines i)) :: output) te)
    ∧ structurize ("x\n\nMy Nice Title\n\ny\n").data
        = ("x\n\n### My Nice Title\n\ny\n").data := by
  refine ⟨?_, step_titlecase, by decide⟩
  intro l
  simp only [is_title_case]
  have hfil : (splitWords l).filter (fun w =>
        (match w with | c :: _ => isAsciiUpper c | [] => false)
          || decide (pyLower w ∈ skipWords))
      = (splitWords l).filter (fun w =>
          isAsciiUpper (w.headD ' ') || decide (pyLower w ∈ skipWords)) := by
    refine List.filter_congr ?_
    intro w _
    cases w with
    | nil => decide
    | cons c cs => rfl
  rw [hfil]
  split
  · next hlt =>
    constructor
    · intro h; exact absurd h (by simp)
    · rintro ⟨h2, _⟩; omega
  · next hge =>
    simp only [decide_eq_true_eq, ge_iff_le]
    constructor
    · intro h; exact ⟨by omega, h⟩
    · rintro ⟨_, h⟩; exact h

/-- C5 witness: the level-3 emission applied to the concrete document
blank / `My Nice Title` / blank at index 1. -/
theorem C5_title_case_rule_witness :
    loopF [[], ("My Nice Title").data, []] 1 1 [[]] false
      = loopF [[], ("My Nice Title").data, []] 0 2
          ((h3Mark ++ pyStrip (lineAt [[], ("My Nice Title").data, []] 1)) :: [[]]) false :=
  C5_title_case_rule.2.1 [[], ("My Nice Title").data, []] 0 1 [[]] false
    (by decide) (by decide) (by decide) (by decide) (by decide) (by decide) (by decide)
    (by decide) (by decide) (by decide) (by decide) (by decide) (by decide) (by decide)

/-- C6: ordered-list normalization.  A non-indented line whose stripped
form matches the numbered pattern (optional `(`, one to three digits,
`.` or `)`, optional `)`, whitespace, content), or — only when the
numbered pattern fails — the lettered pattern (single ASCII letter in
place of the digits), is re-emitted as `1. ` followed by the captured
content, regardless of the original number or letter.  The claim's mixed
document and a parenthesised two-digit item are checked concretely. -/
theorem C6_ordered_list_rule :
    (∀ (lines : List Line) (fuel i : Nat) (output : List Line) (te : Bool) (g : Line),
        i < lines.length →
        indentMatch (lineAt lines i) = false →
        numberedMatch (pyStrip (lineAt lines i)) = some g →
        loopF lines (fuel + 1) i output te
          = loopF lines fuel (i + 1) ((olMark ++ g) :: output) te)
    ∧ (∀ (lines : List Line) (fuel i : Nat) (output : List Line) (te : Bool) (g : Line),
        i < lines.length →
        indentMatch (lineAt lines i) = false →
        numberedMatch (pyStrip (lineAt lines i)) = none →
        letteredMatch (pyStrip (lineAt lines i)) = some g →
        loopF lines (fuel + 1) i output te
          = loopF lines fuel (i + 1) ((olMark ++ g) :: output) te)
    ∧ structurize ("1. First\na) Second\n").data = ("1. First\n1. Second\n").data
    ∧ structurize ("(12) item\n").data = ("1. item\n").data := by
  refine ⟨?_, ?_, by decide, by decide⟩
  · intro lines fuel i output te g hi hind hnum
    obtain ⟨c, r, hs, hc⟩ := numberedMatch_shape hnum
    have hnosep : c ∉ sepChars := by
      rcases hc with rfl | hd
      · exact not_sep_of_paren rfl
      · exact not_sep_of_digit hd
    have hnobul : c ∉ bulletChars := by
      rcases hc with rfl | hd
      · exact not_bullet_of_paren rfl
      · exact not_bullet_of_digit hd
    have hnoind : ¬(indentMatch (lineAt lines i) = true ∧ pyStrip (lineAt lines i) ≠ []) := by
      rintro ⟨h1, _⟩
      rw [hind] at h1
      exact Bool.false_ne_true h1
    refine step_numbered lines fuel i output te g hi ?_ hnoind ?_ hnum
    · rw [hs]; exact sepMatch_none_of_head hnosep
    · rw [hs]; exact bulletMatch_none_of_head hnobul
  · intro lines fuel i output te g hi hind hnumn hlet
    obtain ⟨c, r, hs, hc⟩ := letteredMatch_shape hlet
    have hnosep : c ∉ sepChars := by
      rcases hc with rfl | hd
      · exact not_sep_of_paren rfl
      · exact not_sep_of_alpha hd
    have hnobul : c ∉ bulletChars := by
      rcases hc with rfl | hd
      · exact not_bullet_of_paren rfl
      · exact not_bullet_of_alpha hd
    have hnoind : ¬(indentMatch (lineAt lines i) = true ∧ pyStrip (lineAt lines i) ≠ []) := by
      rintro ⟨h1, _⟩
      rw [hind] at h1
      exact Bool.false_ne_true h1
    refine step_lettered lines fuel i output te g hi ?_ hnoind ?_ hnumn hlet
    · rw [hs]; exact sepMatch_none_of_head hnosep
    · rw [hs]; exact bulletMatch_none_of_head hnobul

/-- C6 witness: the numbered branch applied to the concrete one-line
document `1. First`. -/
theorem C6_ordered_list_rule_witness :
    loopF [("1. First").data] 1 0 [] false
      = loopF [("1. First").data] 0 1 ((olMark ++ ("First").data) :: []) false :=
  C6_ordered_list_rule.1 [("1. First").data] 0 0 [] false ("First").data
    (by decide) (by decide) (by decide)

/-- C7: pass-through guarantee.  `structurize` splits the tab-expanded
text into lines and feeds them to the loop; whenever none of the seven
rules fires at the cursor, exactly one output line is appended and it is
the current (tab-expanded) input line itself, whitespace included. -/
theorem C7_passthrough :
    (∀ t : Line, structurize t
        = joinLines (loopF (splitLines (expandTabs t))
            (splitLines (expandTabs t)).length 0 [] false).reverse)
    ∧ (∀ (lines : List Line) (fuel i : Nat) (output : List Line) (te : Bool),
        i < lines.length →
        sepMatch (pyStrip (lineAt lines i)) = none →
        ¬(indentMatch (lineAt lines i) = true ∧ pyStrip (lineAt lines i) ≠ []) →
        bulletMatch (pyStrip (lineAt lines i)) = none →
        numberedMatch (pyStrip (lineAt lines i)) = none →
        letteredMatch (pyStrip (lineAt lines i)) = none →
        ¬(allCapsMatch (pyStrip (lineAt lines i)) = true
            ∧ (pyStrip (lineAt lines i)).length ≤ 80
            ∧ (nextStrippedAt lines i = [] ∨ i = lines.length - 1)) →
        ¬(3 ≤ (pyStrip (lineAt lines i)).length
            ∧ (pyStrip (lineAt lines i)).length ≤ 80
            ∧ prevStrippedAt lines i = [] ∧ nextStrippedAt lines i = []
            ∧ is_title_case (pyStrip (lineAt lines i)) = true
            ∧ endsWithPunct (pyStrip (lineAt lines i)) = false
            ∧ 0 < i) →
        loopF lines (fuel + 1) i output te
          = loopF lines fuel (i + 1) (lineAt lines i :: output) te) :=
  ⟨fun _ => rfl, step_passthrough⟩

/-- C7 witness: the pass-through branch applied to the concrete one-line
document `just some text`. -/
theorem C7_passthrough_witness :
    loopF [("just some text").data] 1 0 [] false
      = loopF [("just some text").data] 0 1 (lineAt [("just some text").data] 0 :: []) false :=
  C7_passthrough.2 [("just some text").data] 0 0 [] false
    (by decide) (by decide) (by decide) (by decide) (by decide) (by decide) (by decide)
    (by decide)

/-- C8: totality.  `structurize` is a total function of the embedding
(it returns a result on every input), and on the empty string it returns
the empty string. -/
theorem C8_totality :
    (∀ t : Line, ∃ r : Line, structurize t = r)
    ∧ structurize [] = []
    ∧ structurizeStr "" = "" :=
  ⟨fun t => ⟨structurize t, rfl⟩, by decide, rfl⟩

/-- C9: headings are never re-promoted by the separator rule.  Whenever
the separator rule examines a previously emitted line whose stripped
form starts with `#`, that line is left untouched and a standalone `---`
is appended instead; consequently re-running `structurize` on outputs
whose promotions already happened changes nothing, checked on the
claim's setext examples and on a heading directly followed by a
separator. -/
theorem C9_no_repromotion :
    (∀ (lines : List Line) (fuel i : Nat) (o : Line) (os : List Line) (te : Bool) (ch : Char),
        i < lines.length →
        sepMatch (pyStrip (lineAt lines i)) = some ch →
        startsWithHash (pyStrip o) = true →
        loopF lines (fuel + 1) i (o :: os) te
          = loopF lines fuel (i + 1) (sepLine :: o :: os) te)
    ∧ structurize (("# Heading\n---\n").data) = ("# Heading\n---\n").data
    ∧ structurize (structurize ("Chapter One\n===\n").data)
        = structurize ("Chapter One\n===\n").data
    ∧ structurize (structurize ("Section\n---\n").data)
        = structurize ("Section\n---\n").data := by
  refine ⟨?_, by decide, by decide, by decide⟩
  intro lines fuel i o os te ch hi hsep hh
  refine step_sep_standalone lines fuel i (o :: os) te ch hi hsep ?_
  rintro ⟨_, _, _, hf⟩
  rw [List.headD_cons] at hf
  rw [hh] at hf
  exact absurd hf (by simp)

/-- C9 witness: the no-repromotion branch applied to the concrete
document `# H` / `---` with the emitted `# H` at the head of the output. -/
theorem C9_no_repromotion_witness :
    loopF [("# H").data, ("---").data] 1 1 [("# H").data] false
      = loopF [("# H").data, ("---").data] 0 2 (sepLine :: ("# H").data :: []) false :=
  C9_no_repromotion.1 [("# H").data, ("---").data] 0 1 ("# H").data [] false '-'
    (by decide) (by decide) (by decide)

/-- C10: after tab expansion no classified line contains a tab, so the
tab alternative of the indent pattern is unreachable and the indent rule
restricted to the four-space test agrees with the full rule on every
line the loop can examine. -/
theorem C10_indent_tab_unreachable :
    (∀ t : Line, ∀ line ∈ splitLines (expandTabs t), '\t' ∉ line)
    ∧ (∀ t : Line, ∀ line ∈ splitLines (expandTabs t),
        indentGroup line = indentGroupSpaces line
          ∧ indentMatch line = indentMatchSpaces line) := by
  have h1 : ∀ t : Line, ∀ line ∈ splitLines (expandTabs t), '\t' ∉ line := by
    intro t line hline hmem
    exact expandTabs_no_tab t (splitLines_mem_chars (expandTabs t) line hline '\t' hmem)
  refine ⟨h1, ?_⟩
  intro t line hline
  have hg := indentGroup_no_tab (h1 t line hline)
  refine ⟨hg, ?_⟩
  unfold indentMatch indentMatchSpaces
  rw [hg]

/-- C10 witness: the agreement applied to the second line of the
concrete document with a tab-indented first line. -/
theorem C10_indent_tab_unreachable_witness :
    indentGroup (("    b").data) = indentGroupSpaces (("    b").data)
      ∧ indentMatch (("    b").data) = indentMatchSpaces (("    b").data) :=
  C10_indent_tab_unreachable.2 ("\ta\n    b").data (("    b").data) (by decide)
